import Mathlib

/-!
Shallow embedding of the scholarship-scraper core
(RetryHandler, RateLimiter, ScraperOrchestrator, AmountParser,
DataNormalizer, DeadlineCalculator, ScholarshipValidator)
translated from the TypeScript sources, with theorems checking the
frozen specification claims against it.
-/

namespace Scholar

/-! ### Generic string helpers (models of JS string primitives) -/

/-- Model of JS `String.prototype.includes` on character lists:
`needle` occurs contiguously inside `hay`. -/
def listContains (needle : List Char) : List Char → Bool
  | [] => needle.isEmpty
  | c :: rest => needle.isPrefixOf (c :: rest) || listContains needle rest

/-- Model of JS `haystack.includes(needle)`. -/
def strContains (haystack needle : String) : Bool :=
  listContains needle.data haystack.data

/-- Model of JS `String.prototype.toLowerCase` (ASCII-adequate). -/
def strLower (s : String) : String :=
  ⟨s.data.map Char.toLower⟩

/-- Model of JS `String.prototype.trim`: strip whitespace from both
ends. -/
def jsTrim (s : String) : String :=
  ⟨((s.data.dropWhile Char.isWhitespace).reverse.dropWhile Char.isWhitespace).reverse⟩

/-- Model of JS `String.prototype.startsWith`. -/
def startsWithStr (s prefixStr : String) : Bool :=
  prefixStr.data.isPrefixOf s.data

/-- Drop the first `n` characters of a string. -/
def dropStr (s : String) (n : Nat) : String :=
  ⟨s.data.drop n⟩

/-- Splitter for JS `str.split(' ')` (single-space separator, empty
pieces preserved). -/
def splitOnSpaceAux : List Char → List Char → List String
  | buf, [] => [⟨buf.reverse⟩]
  | buf, c :: rest =>
    if c = ' ' then String.mk buf.reverse :: splitOnSpaceAux [] rest
    else splitOnSpaceAux (c :: buf) rest

/-- JS `str.split(' ')`. -/
def splitOnSpace (s : String) : List String :=
  splitOnSpaceAux [] s.data

/-- JS `arr.join(' ')`. -/
def joinWithSpace : List String → String
  | [] => ""
  | x :: xs => xs.foldl (fun acc w => acc ++ " " ++ w) x

/-- JS whitespace class `\s` (modelled by the standard whitespace test;
adequate for the ASCII inputs considered). -/
def jsWs (c : Char) : Bool :=
  c.isWhitespace

/-- Digit test for the regex class `\d`. -/
def jsDigit (c : Char) : Bool :=
  c.isDigit

/-! ### RetryHandler (src RetryHandler.ts, `executeWithRetry`)

The loop `for (attempt = 0; attempt <= retries; attempt++)` is embedded
with the remaining retry budget `fuel = retries - attempt` as the
structural recursion argument; `a` is the current `attempt` counter.
The run records, besides the result, the number of attempts made, the
backoff delays awaited (in ms) and the `onRetry(attempt+1, error)`
callback invocations, in order. -/

structure RetryRun (E A : Type) where
  result : Except E A
  attemptsMade : Nat
  delays : List Nat
  onRetryCalls : List (Nat × E)

/-- One pass of the retry loop starting at attempt counter `a` with
`fuel` retries still allowed (`fuel = retries - a`).  Mirrors the body:
on success return `fn()`'s value; on failure, if the budget is
exhausted re-throw the last error unchanged, otherwise compute
`delay = min(baseDelay * 2^attempt, maxDelay)`, invoke `onRetry(attempt+1, err)`,
await the delay, and continue with the next attempt. -/
def retryGo (attempts : Nat → Except E A) (baseDelay maxDelay : Nat) :
    (fuel a : Nat) → RetryRun E A
  | 0, a =>
    match attempts a with
    | .ok v => ⟨.ok v, 1, [], []⟩
    | .error e => ⟨.error e, 1, [], []⟩
  | fuel + 1, a =>
    match attempts a with
    | .ok v => ⟨.ok v, 1, [], []⟩
    | .error e =>
      let d := min (baseDelay * 2 ^ a) maxDelay
      let rest := retryGo attempts baseDelay maxDelay fuel (a + 1)
      ⟨rest.result, rest.attemptsMade + 1, d :: rest.delays,
        (a + 1, e) :: rest.onRetryCalls⟩

/-- `RetryHandler.executeWithRetry`, with the fallible operation modelled
by the outcome `attempts i` of its `i`-th invocation (0-based). -/
def executeWithRetry (attempts : Nat → Except E A)
    (retries baseDelay maxDelay : Nat) : RetryRun E A :=
  retryGo attempts baseDelay maxDelay retries 0

/-! ### RateLimiter (src RateLimiter.ts, `throttle` / `waitForSlot`)

Timed model of sequential calls through one limiter instance.  Times
are rationals (milliseconds); `interval = 1000 / requestsPerSecond`
exactly as the constructor computes it.  A `setTimeout(_, t)` callback
fires no earlier than `t` ms after scheduling; the nonnegative
`lateness` parameter is the extra delay the event loop adds. -/

structure LimiterState where
  lastRequestTime : ℚ

/-- `waitForSlot`: computes `timeToWait = max(0, interval - (now - lastRequestTime))`;
when zero, records `now` and resolves immediately; otherwise resolves
when the scheduled timer fires and records that firing time.  Returns
the time the slot is granted together with the updated state. -/
def waitForSlot (interval : ℚ) (st : LimiterState) (now lateness : ℚ) :
    ℚ × LimiterState :=
  let timeSinceLastRequest := now - st.lastRequestTime
  let timeToWait := max 0 (interval - timeSinceLastRequest)
  if timeToWait = 0 then
    (now, ⟨now⟩)
  else
    let fireTime := now + timeToWait + lateness
    (fireTime, ⟨fireTime⟩)

/-- `throttle(fn)`: awaits `waitForSlot`, then executes the operation.
The operation is modelled as a function of the instant it begins
executing; `throttle` returns its result, that instant, and the updated
limiter state. -/
def throttle (interval : ℚ) (st : LimiterState) (now lateness : ℚ)
    (op : ℚ → A) : A × ℚ × LimiterState :=
  let slot := waitForSlot interval st now lateness
  (op slot.1, slot.1, slot.2)

/-! ### ScraperOrchestrator (src ScraperOrchestrator.ts)

Each extractor is modelled by its name together with the outcome of
`retryHandler.executeWithRetry(() => scraper.scrape(), ...)`: either the
final list of raw records or the message of the error re-raised after
the retries are exhausted.  Records are abstract (`ρ` raw, `α`
normalized) and the orchestrator is parametric in the normalizer
function (`DataNormalizer.normalize` in the source).  Wall-clock
`processingTime` fields are modelled as 0 (timing is not part of any
claim). `successRate` is computed in a model of JS numbers so that the
division `0 / 0` yields `NaN` as it does in JavaScript. -/

/-- Minimal model of a JS number: `NaN`, signed infinities, or a finite
rational value. -/
inductive JSNum where
  | nan : JSNum
  | posInf : JSNum
  | negInf : JSNum
  | num : ℚ → JSNum
  deriving DecidableEq

/-- JS division restricted to finite operands (all the orchestrator
divides): `0 / 0 = NaN`, `x / 0 = ±Infinity` for `x ≠ 0`, else exact. -/
def jsDiv (a b : ℚ) : JSNum :=
  if b = 0 then
    if a = 0 then .nan
    else if a > 0 then .posInf
    else .negInf
  else .num (a / b)

/-- JS multiplication of a possibly non-finite number by a finite one,
as in `successRate * 100`: `NaN` propagates; `±Infinity * c` keeps or
flips sign (the `c = 0` case yields `NaN`). -/
def jsMulFin (a : JSNum) (c : ℚ) : JSNum :=
  match a with
  | .nan => .nan
  | .posInf => if c = 0 then .nan else if c > 0 then .posInf else .negInf
  | .negInf => if c = 0 then .nan else if c > 0 then .negInf else .posInf
  | .num q => .num (q * c)

/-- `ScraperResult` (types/index.ts): per-source outcome. -/
structure ScraperResult (α : Type) where
  source : String
  scholarships : List α
  count : Nat
  processingTime : Nat
  success : Bool
  error : Option String

/-- `ScraperSummary` (types/index.ts): run-level aggregate. -/
structure ScraperSummary (α : Type) where
  totalScholarships : Nat
  successfulSources : Nat
  failedSources : Nat
  totalProcessingTime : Nat
  successRate : JSNum
  results : List (ScraperResult α)

/-- `scrapeSource`: wraps one extractor; a successful scrape maps every
raw record through the normalizer, a failure after retries is caught
and recorded as `{success: false, error: message}` with no records. -/
def scrapeSource (normalize : ρ → α) (scraper : String × Except String (List ρ)) :
    ScraperResult α :=
  match scraper.2 with
  | .ok raws =>
    let normalized := raws.map normalize
    { source := scraper.1, scholarships := normalized,
      count := normalized.length, processingTime := 0,
      success := true, error := none }
  | .error msg =>
    { source := scraper.1, scholarships := [], count := 0,
      processingTime := 0, success := false, error := some msg }

/-- `scrapeAll`: runs every extractor (the `p-limit` pool preserves the
submission order of the result list), then aggregates counts and the
success rate `(successful / total) * 100`. -/
def scrapeAll (normalize : ρ → α) (scrapers : List (String × Except String (List ρ))) :
    ScraperSummary α :=
  let results := scrapers.map (scrapeSource normalize)
  let successfulResults := results.filter (·.success)
  let failedResults := results.filter (fun r => !r.success)
  let totalScholarships := successfulResults.foldl (fun sum r => sum + r.count) 0
  { totalScholarships := totalScholarships,
    successfulSources := successfulResults.length,
    failedSources := failedResults.length,
    totalProcessingTime := 0,
    successRate := jsMulFin (jsDiv successfulResults.length results.length) 100,
    results := results }

/-- `getScholarships`: flattens the records of the successful results,
in result order. -/
def getScholarships (summary : ScraperSummary α) : List α :=
  ((summary.results.filter (·.success)).map (·.scholarships)).flatten

/-! ### AmountParser (appended to src/lib/DataNormalizer.ts)

The numeric-token regex `\d+(?:,\d{3})*(?:\.\d+)?` with the `g` flag is
embedded as a leftmost, greedy, non-overlapping scanner over the
character list; currency symbols `£€$¥₹` are removed first, and each
match is parsed by `parseFloat` after stripping commas. -/

/-- Currency symbols removed by `text.replace(/[£€$¥₹]/g, '')`. -/
def isCurrencySym (c : Char) : Bool :=
  c = '£' || c = '€' || c = '$' || c = '¥' || c = '₹'

/-- Greedy match of the `(?:,\d{3})*` groups: consume `,ddd` as long as
a comma is followed by three digits.  Returns the consumed characters
and the remainder. -/
def commaGroups : List Char → List Char × List Char
  | ',' :: a :: b :: c :: rest =>
    if a.isDigit && b.isDigit && c.isDigit then
      let g := commaGroups rest
      (',' :: a :: b :: c :: g.1, g.2)
    else ([], ',' :: a :: b :: c :: rest)
  | l => ([], l)

/-- Greedy match of the optional fraction `(?:\.\d+)?`. -/
def fracPart : List Char → List Char × List Char
  | '.' :: d :: rest =>
    if d.isDigit then
      ('.' :: d :: rest.takeWhile Char.isDigit, rest.dropWhile Char.isDigit)
    else ([], '.' :: d :: rest)
  | l => ([], l)

/-- All matches of `\d+(?:,\d{3})*(?:\.\d+)?` in order (leftmost,
greedy, non-overlapping), as matched substrings.  `fuel` bounds the
scan (one unit per step; `l.length` always suffices). -/
def scanNumbersAux : Nat → List Char → List String
  | 0, _ => []
  | _, [] => []
  | fuel + 1, c :: rest =>
    if c.isDigit then
      let intPart := c :: rest.takeWhile Char.isDigit
      let r1 := rest.dropWhile Char.isDigit
      let g := commaGroups r1
      let f := fracPart g.2
      ⟨intPart ++ g.1 ++ f.1⟩ :: scanNumbersAux fuel f.2
    else
      scanNumbersAux fuel rest

/-- Matches of the numeric-token regex against `s`. -/
def scanNumbers (s : List Char) : List String :=
  scanNumbersAux s.length s

/-- Value of a digit list read in base 10. -/
def natOfDigits (l : List Char) : Nat :=
  l.foldl (fun n c => n * 10 + (c.toNat - 48)) 0

/-- `parseFloat(match.replace(/,/g, ''))` on a matched numeric token:
integer part, optional `.` and fraction digits. -/
def parseDecimal (s : String) : ℚ :=
  let l := s.data.filter (fun c => c ≠ ',')
  let intPart := l.takeWhile Char.isDigit
  match l.dropWhile Char.isDigit with
  | '.' :: fracDigits =>
    (natOfDigits intPart : ℚ) + (natOfDigits fracDigits : ℚ) / (10 : ℚ) ^ fracDigits.length
  | _ => (natOfDigits intPart : ℚ)

/-- `extractAllNumericValues`: strip currency symbols, scan all numeric
tokens, parse each (never `NaN` for these matches, so the `isNaN`
filter in the source keeps everything). -/
def extractAllNumericValues (text : String) : List ℚ :=
  let cleaned := text.data.filter (fun c => ¬isCurrencySym c)
  (scanNumbers cleaned).map parseDecimal

/-- `extractMaxFromRange`: `Math.max(...numbers)` over all numeric
tokens; a single token is returned as-is; none yields `null`. -/
def extractMaxFromRange (rangeString : Option String) : Option ℚ :=
  match rangeString with
  | none => none
  | some s =>
    match extractAllNumericValues s with
    | [] => none
    | [x] => some x
    | x :: xs => some (xs.foldl max x)

/-- `extractNumericValue`: the first numeric token, or `null`. -/
def extractNumericValue (text : Option String) : Option ℚ :=
  match text with
  | none => none
  | some s =>
    match extractAllNumericValues s with
    | [] => none
    | x :: _ => some x

/-- Test of `/\d[\d,]*\s*-\s*[\$£€¥₹]?\d/` at the head of `l`. -/
def dashRangeAt (l : List Char) : Bool :=
  match l with
  | [] => false
  | c :: rest =>
    c.isDigit &&
      (let r1 := rest.dropWhile (fun x => x.isDigit || x = ',')
       let r2 := r1.dropWhile jsWs
       match r2 with
       | '-' :: r3 =>
         let r4 := r3.dropWhile jsWs
         match r4 with
         | [] => false
         | x :: r5 =>
           if isCurrencySym x then
             match r5 with
             | y :: _ => y.isDigit
             | [] => false
           else x.isDigit
       | _ => false)

/-- Test of `/\d\s+to\s+\d/i` at the head of `l`. -/
def toRangeAt (l : List Char) : Bool :=
  match l with
  | [] => false
  | c :: rest =>
    c.isDigit &&
      (let r1 := rest.dropWhile jsWs
       rest.length > r1.length &&
         match r1 with
         | t :: o :: r2 =>
           t.toLower = 't' && o.toLower = 'o' &&
             (let r3 := r2.dropWhile jsWs
              r2.length > r3.length &&
                match r3 with
                | d :: _ => d.isDigit
                | [] => false)
         | _ => false)

/-- Test of `/up\s+to/i` at the head of `l`. -/
def upToAt (l : List Char) : Bool :=
  match l with
  | u :: p :: rest =>
    u.toLower = 'u' && p.toLower = 'p' &&
      (let r1 := rest.dropWhile jsWs
       rest.length > r1.length &&
         match r1 with
         | t :: o :: _ => t.toLower = 't' && o.toLower = 'o'
         | _ => false)
  | _ => false

/-- Test of `/between\s+/i` at the head of `l`. -/
def betweenAt (l : List Char) : Bool :=
  match l with
  | b :: e :: t :: w :: e2 :: e3 :: n :: rest =>
    b.toLower = 'b' && e.toLower = 'e' && t.toLower = 't' && w.toLower = 'w' &&
      e2.toLower = 'e' && e3.toLower = 'e' && n.toLower = 'n' &&
      rest.length > (rest.dropWhile jsWs).length
  | _ => false

/-- `regex.test(s)`: the pattern matches at some position. -/
def anyPosition (p : List Char → Bool) : List Char → Bool
  | [] => p []
  | c :: rest => p (c :: rest) || anyPosition p rest

/-- `isRangeFormat`: any of the four range patterns matches. -/
def isRangeFormat (text : String) : Bool :=
  anyPosition dashRangeAt text.data || anyPosition toRangeAt text.data ||
    anyPosition upToAt text.data || anyPosition betweenAt text.data

/-- The `fullCoverageKeywords` list, in source order. -/
def fullCoverageKeywords : List String :=
  ["full tuition", "full coverage", "full funding", "fully funded",
   "complete funding", "total coverage"]

/-- The `variableKeywords` list, in source order. -/
def variableKeywords : List String :=
  ["varies", "variable", "tbd", "to be determined", "not specified",
   "contact", "inquire"]

/-- `isFullCoverage`: falsy text is not full coverage; otherwise any
full-coverage keyword occurs in the lowercased, trimmed text. -/
def isFullCoverage (text : String) : Bool :=
  if text = "" then false
  else
    let normalizedText := jsTrim (strLower text)
    fullCoverageKeywords.any (fun k => strContains normalizedText k)

/-- `ParsedAmount` (AmountParser). -/
structure ParsedAmount where
  value : Option ℚ
  isRange : Bool
  isFullTuition : Bool
  isVariable : Bool
  originalText : String
  deriving DecidableEq

/-- `AmountParser.parse`.  `none` models `null`/`undefined` input; the
guard `!amountString` also routes the empty string to the default. -/
def parse (amountString : Option String) : ParsedAmount :=
  match amountString with
  | none => ⟨none, false, false, false, ""⟩
  | some s =>
    if s = "" then ⟨none, false, false, false, ""⟩
    else
      let normalizedText := jsTrim (strLower s)
      if isFullCoverage normalizedText then ⟨none, false, true, false, s⟩
      else if variableKeywords.any (fun k => strContains normalizedText k) then
        ⟨none, false, false, true, s⟩
      else
        let isRange := isRangeFormat s
        let value :=
          if isRange then extractMaxFromRange (some s)
          else extractNumericValue (some s)
        ⟨value, isRange, false, false, s⟩

/-! ### Calendar arithmetic (model of the JS `Date` value)

A `Date` at local midnight is represented by its civil day number
(days since 1970-01-01, proleptic Gregorian).  The host timezone is
taken to be UTC, as in the specification's scenario output
`...T00:00:00.000Z`. -/

/-- Civil day number of `(y, m, d)` with `m ∈ 1..12`; standard
era-based Gregorian conversion. -/
def daysFromCivil (y m d : Int) : Int :=
  let y2 := if m ≤ 2 then y - 1 else y
  let era := Int.fdiv y2 400
  let yoe := y2 - era * 400
  let mp := if m > 2 then m - 3 else m + 9
  let doy := Int.fdiv (153 * mp + 2) 5 + d - 1
  let doe := yoe * 365 + Int.fdiv yoe 4 - Int.fdiv yoe 100 + doy
  era * 146097 + doe - 719468

/-- Inverse of `daysFromCivil`: the `(y, m, d)` of a civil day number. -/
def civilFromDays (z0 : Int) : Int × Int × Int :=
  let z := z0 + 719468
  let era := Int.fdiv z 146097
  let doe := z - era * 146097
  let yoe := Int.fdiv (doe - Int.fdiv doe 1460 + Int.fdiv doe 36524 - Int.fdiv doe 146096) 365
  let y := yoe + era * 400
  let doy := doe - (365 * yoe + Int.fdiv yoe 4 - Int.fdiv yoe 100)
  let mp := Int.fdiv (5 * doy + 2) 153
  let d := doy - Int.fdiv (153 * mp + 2) 5 + 1
  let m := if mp < 10 then mp + 3 else mp - 9
  (if m ≤ 2 then y + 1 else y, m, d)

/-- `new Date(year, monthIndex, day)` (numeric arguments): JavaScript
normalizes an out-of-range month index into the year and rolls any
out-of-range day over the month boundary; the result is the civil day
of the local-midnight instant so obtained. -/
def jsMakeDate (year monthIndex day : Int) : Int :=
  let ny := year + Int.fdiv monthIndex 12
  let nm := Int.emod monthIndex 12
  daysFromCivil ny (nm + 1) 1 + (day - 1)

/-- Left-pad a nonnegative integer to two digits. -/
def pad2 (n : Int) : String :=
  if n < 10 then "0" ++ toString n else toString n

/-- `Date.prototype.toISOString` of a local-midnight date under a UTC
host timezone (years taken in 1000..9999, as all inputs here are). -/
def toISOStringUTC (epochDay : Int) : String :=
  let c := civilFromDays epochDay
  toString c.1 ++ "-" ++ pad2 c.2.1 ++ "-" ++ pad2 c.2.2 ++ "T00:00:00.000Z"

/-! ### DataNormalizer (src/lib/DataNormalizer.ts) -/

/-- Greedy match of `\d{1,2}` at the head of a character list
(two digits if available, else one); backtracking cannot help because
the following literal separators are never digits. -/
def digits1or2 : List Char → Option (List Char × List Char)
  | c1 :: c2 :: rest =>
    if c1.isDigit then
      if c2.isDigit then some ([c1, c2], rest) else some ([c1], c2 :: rest)
    else none
  | [c1] => if c1.isDigit then some ([c1], []) else none
  | [] => none

/-- Match of `\d{4}` at the head of a character list. -/
def digits4 : List Char → Option (List Char × List Char)
  | a :: b :: c :: d :: rest =>
    if a.isDigit && b.isDigit && c.isDigit && d.isDigit then
      some ([a, b, c, d], rest)
    else none
  | _ => none

/-- Anchored match of `^(\d{1,2})SEP(\d{1,2})SEP(\d{4})$` for a literal
separator character, returning the three captured groups. -/
def matchTwoTwoFour (sep : Char) (l : List Char) : Option (String × String × String) :=
  match digits1or2 l with
  | none => none
  | some (g1, r1) =>
    match r1 with
    | s1 :: r2 =>
      if s1 = sep then
        match digits1or2 r2 with
        | none => none
        | some (g2, r3) =>
          match r3 with
          | s2 :: r4 =>
            if s2 = sep then
              match digits4 r4 with
              | some (g3, []) => some (⟨g1⟩, ⟨g2⟩, ⟨g3⟩)
              | _ => none
            else none
          | [] => none
      else none
    | [] => none

/-- Anchored match of `^(\d{4})-(\d{1,2})-(\d{1,2})$`. -/
def matchFourTwoTwo (l : List Char) : Option (String × String × String) :=
  match digits4 l with
  | none => none
  | some (g1, r1) =>
    match r1 with
    | s1 :: r2 =>
      if s1 = '-' then
        match digits1or2 r2 with
        | none => none
        | some (g2, r3) =>
          match r3 with
          | s2 :: r4 =>
            if s2 = '-' then
              match digits1or2 r4 with
              | some (g3, []) => some (⟨g1⟩, ⟨g2⟩, ⟨g3⟩)
              | _ => none
            else none
          | [] => none
      else none
    | [] => none

/-- The `formats` array tried in order: `MM/DD/YYYY`-shaped,
`\d{1,2}-\d{1,2}-\d{4}`, `\d{4}-\d{1,2}-\d{1,2}`; first match wins. -/
def firstFormatMatch (date : String) : Option (String × String × String) :=
  match matchTwoTwoFour '/' date.data with
  | some g => some g
  | none =>
    match matchTwoTwoFour '-' date.data with
    | some g => some g
    | none => matchFourTwoTwo date.data

/-- `parseInt` on a captured all-digit group. -/
def parseIntGroup (s : String) : Int :=
  (natOfDigits s.data : Int)

/-- Partial model of date-fns `parseISO` adequate for the inputs
considered: accepts exactly the date-only ISO form `YYYY-MM-DD` with a
calendar-valid month and day, and yields its civil day; every other
string is invalid here (`"31/12/2024"` in particular). -/
def parseISOModel (date : String) : Option Int :=
  match matchFourTwoTwo date.data with
  | some (gy, gm, gd) =>
    if gm.length = 2 && gd.length = 2 then
      let y := parseIntGroup gy
      let m := parseIntGroup gm
      let d := parseIntGroup gd
      let daysInMonth :=
        (if m = 12 then daysFromCivil (y + 1) 1 1 else daysFromCivil y (m + 1) 1) -
          daysFromCivil y m 1
      if 1 ≤ m && m ≤ 12 && 1 ≤ d && d ≤ daysInMonth then
        some (daysFromCivil y m d)
      else none
    else none
  | none => none

/-- Partial model of the generic `new Date(string)` fallback: treated
as always failing; it is not exercised by any theorem below because the
explicit-format step matches first on every input considered. -/
def newDateStringModel (_ : String) : Option Int :=
  none

/-- `DataNormalizer.normalizeDate` on a string input: date-fns
`parseISO` first, then the explicit format patterns (branching on the
presence of `/` and on the first group's length, exactly as the
source), then the generic constructor fallback, and finally the
original text verbatim.  The `isValid` guard after the explicit-format
constructor is always true — `new Date` with finite numeric arguments
in these ranges never yields an invalid date — so it is elided. -/
def normalizeDate (date : String) : String :=
  match parseISOModel date with
  | some ep => toISOStringUTC ep
  | none =>
    match firstFormatMatch date with
    | some (g1, g2, g3) =>
      let parsedDate :=
        if strContains date "/" then
          jsMakeDate (parseIntGroup g3) (parseIntGroup g1 - 1) (parseIntGroup g2)
        else if strContains date "-" && g1.length = 4 then
          jsMakeDate (parseIntGroup g1) (parseIntGroup g2 - 1) (parseIntGroup g3)
        else
          jsMakeDate (parseIntGroup g3) (parseIntGroup g2 - 1) (parseIntGroup g1)
      toISOStringUTC parsedDate
    | none =>
      match newDateStringModel date with
      | some ep => toISOStringUTC ep
      | none => date

/-- The `degreeMapping` table, in source (insertion) order —
`Object.entries` iterates string keys in this order. -/
def degreeMapping : List (String × String) :=
  [("bachelor", "Bachelors"), ("bachelors", "Bachelors"),
   ("undergraduate", "Bachelors"), ("undergrad", "Bachelors"),
   ("bs", "Bachelors"), ("ba", "Bachelors"), ("bsc", "Bachelors"),
   ("master", "Masters"), ("masters", "Masters"), ("graduate", "Masters"),
   ("grad", "Masters"), ("ms", "Masters"), ("ma", "Masters"),
   ("msc", "Masters"), ("m.s.", "Masters"), ("m.a.", "Masters"),
   ("phd", "PhD"), ("ph.d.", "PhD"), ("ph.d", "PhD"),
   ("doctorate", "PhD"), ("doctoral", "PhD"), ("doctor", "PhD"),
   ("postdoc", "Postdoc"), ("postdoctoral", "Postdoc"),
   ("post-doctoral", "Postdoc"), ("post-doc", "Postdoc")]

/-- Word character for the regex boundary `\b` (`[A-Za-z0-9_]`). -/
def isWordChar (c : Char) : Bool :=
  c.isAlphanum || c = '_'

/-- Splitter for `/[\/|&]|\band\b|\bor\b/i`: walks the characters with
the previous original character at hand (for the left `\b`), emitting a
token at each separator match.  A match is a literal `/`, `|`, `&`, or
a case-insensitive `and`/`or` with non-word (or absent) neighbours.
`buf` holds the current token reversed; `fuel` decreases every step. -/
def splitDegreesAux : Nat → Option Char → List Char → List Char → List String
  | 0, _, buf, _ => [⟨buf.reverse⟩]
  | _, _, buf, [] => [⟨buf.reverse⟩]
  | fuel + 1, prev, buf, c :: rest =>
    if c = '/' || c = '|' || c = '&' then
      String.mk buf.reverse :: splitDegreesAux fuel (some c) [] rest
    else
      let leftBoundary := match prev with
        | none => true
        | some p => !isWordChar p
      match rest with
      | n :: d :: rest2 =>
        if leftBoundary && c.toLower = 'a' && n.toLower = 'n' && d.toLower = 'd' &&
            (match rest2 with | [] => true | x :: _ => !isWordChar x) then
          String.mk buf.reverse :: splitDegreesAux fuel (some d) [] rest2
        else if leftBoundary && c.toLower = 'o' && n.toLower = 'r' &&
            !isWordChar d then
          String.mk buf.reverse :: splitDegreesAux fuel (some n) [] (d :: rest2)
        else
          splitDegreesAux fuel (some c) (c :: buf) rest
      | [n] =>
        if leftBoundary && c.toLower = 'o' && n.toLower = 'r' then
          String.mk buf.reverse :: splitDegreesAux fuel (some n) [] []
        else
          splitDegreesAux fuel (some c) (c :: buf) rest
      | [] => splitDegreesAux fuel (some c) (c :: buf) rest

/-- `splitDegrees`: split on the separator regex, trim each piece, drop
empties. -/
def splitDegrees (degree : String) : List String :=
  ((splitDegreesAux (degree.data.length + 1) none [] degree.data).map
    jsTrim).filter (fun d => d.length > 0)

/-- `capitalizeWords`: split on single spaces, uppercase each word's
first character and lowercase the rest, rejoin. -/
def capitalizeWords (str : String) : String :=
  joinWithSpace
    ((splitOnSpace str).map (fun word =>
      match word.data with
      | [] => ""
      | c :: rest => String.mk (c.toUpper :: rest.map Char.toLower)))

/-- `normalizeDegreeLevel`: exact lookup in the synonym table, then
first substring-containment hit in table order, then title-case
fallback.  The source's `string | null` return is never `null` (the
fallback always returns a string), so the embedding returns `String`
and the vacuous `!== null` filter in `normalizeDegree` is elided. -/
def normalizeDegreeLevel (degree : String) : String :=
  let normalized := strLower (jsTrim degree)
  match degreeMapping.find? (fun p => p.1 = normalized) with
  | some p => p.2
  | none =>
    match degreeMapping.find? (fun p => strContains normalized p.1) with
    | some p => p.2
    | none => capitalizeWords degree

/-- Worker for `[...new Set(xs)]`: keep the first occurrence of each
element, tracking the elements already emitted. -/
def dedupKeepFirstAux (seen : List String) : List String → List String
  | [] => []
  | x :: xs =>
    if x ∈ seen then dedupKeepFirstAux seen xs
    else x :: dedupKeepFirstAux (x :: seen) xs

/-- `[...new Set(xs)]`: deduplicate keeping first occurrences. -/
def dedupKeepFirst (l : List String) : List String :=
  dedupKeepFirstAux [] l

/-- A degree input is a single string or an array of strings. -/
inductive DegreeInput where
  | one : String → DegreeInput
  | many : List String → DegreeInput

/-- `DataNormalizer.normalizeDegree`: wrap a single string, split each
entry on the separators, map every fragment through
`normalizeDegreeLevel`, and collapse duplicates via a `Set`. -/
def normalizeDegree (degree : DegreeInput) : List String :=
  let degrees := match degree with
    | .one s => [s]
    | .many l => l
  let normalized := (degrees.map splitDegrees).flatten.map normalizeDegreeLevel
  dedupKeepFirst normalized

/-- Partial model of the WHATWG `new URL` constructor (Node) on inputs
that begin with `http://` or `https://` — all that ever reach it in
`normalizeURL`: construction succeeds iff the authority part (up to the
first `/`, `?` or `#` after the scheme) is nonempty and free of
whitespace.  Adequate for the inputs considered. -/
def jsURLOk (s : String) : Bool :=
  let afterScheme :=
    if startsWithStr s "https://" then some (dropStr s 8)
    else if startsWithStr s "http://" then some (dropStr s 7)
    else none
  match afterScheme with
  | none => false
  | some rest =>
    let host := rest.data.takeWhile (fun c => c ≠ '/' && c ≠ '?' && c ≠ '#')
    !host.isEmpty && host.all (fun c => !c.isWhitespace)

/-- `DataNormalizer.normalizeURL`: trim; a string without an `http://`
or `https://` scheme is returned with `https://` prepended (the `new URL`
check is never reached for it); otherwise `new URL(trimmed)` is
attempted — on success the trimmed string is returned, and the `catch`
returns the original, untrimmed argument. -/
def normalizeURL (url : String) : String :=
  let trimmed := jsTrim url
  if !startsWithStr trimmed "http://" && !startsWithStr trimmed "https://" then
    "https://" ++ trimmed
  else if jsURLOk trimmed then trimmed
  else url

/-! ### DeadlineCalculator (DeadlineCalculator.ts)

A deadline is modelled after parsing: `none` for a falsy argument or an
unparseable date, `some day` for the civil day number of the parsed
date's local midnight.  "Now" is likewise given by its civil day.  Both
sides being midnights, the millisecond difference is an exact multiple
of 86400000 and `Math.ceil` of the quotient is the plain day
difference. -/

/-- `daysUntil`: whole days from today's midnight to the deadline's
midnight, `null` when the deadline is absent or invalid. -/
def daysUntil (deadline : Option Int) (nowDay : Int) : Option Int :=
  match deadline with
  | none => none
  | some d => some (d - nowDay)

/-- `isWithinDays`: non-null day count, not in the past, and at most
`days`. -/
def isWithinDays (deadline : Option Int) (nowDay : Int) (days : Int) : Bool :=
  match daysUntil deadline nowDay with
  | none => false
  | some k => decide (0 ≤ k) && decide (k ≤ days)

/-- `categorizeUrgency` thresholds are 30 / 60 / 90 days. -/
def categorizeUrgency (deadline : Option Int) (nowDay : Int) : String :=
  match daysUntil deadline nowDay with
  | none => "none"
  | some k =>
    if k < 0 then "none"
    else if k ≤ 30 then "urgent"
    else if k ≤ 60 then "soon"
    else if k ≤ 90 then "later"
    else "none"

/-! ### ScholarshipValidator (src/lib/ScholarshipValidator.ts and
validation-schema.ts)

Field values are modelled as `Option String` (`none` for
`undefined`/`null`); array-valued fields are represented by their
`String(value)` rendering, which the validator applies anyway.  String
length is the code-unit length (equal to `String.length` here for the
BMP inputs considered). -/

inductive Severity where
  | critical : Severity
  | major : Severity
  | minor : Severity
  deriving DecidableEq

structure ValidationError where
  field : String
  message : String
  severity : Severity
  deriving DecidableEq

structure ValidationWarning where
  field : String
  message : String
  suggestion : Option String
  deriving DecidableEq

structure ValidationResult where
  isValid : Bool
  errors : List ValidationError
  warnings : List ValidationWarning
  deriving DecidableEq

/-- Constraint record of `SCHOLARSHIP_SCHEMA.constraints`; `urlPattern`
marks the `pattern: /^https?:\/\/.+/` entry. -/
structure FieldConstraints where
  minLength : Option Nat
  maxLength : Option Nat
  urlPattern : Bool
  deriving DecidableEq

/-- `SCHOLARSHIP_SCHEMA.required`. -/
def requiredFields : List String :=
  ["name", "source", "link"]

/-- `SCHOLARSHIP_SCHEMA.optional`. -/
def optionalFields : List String :=
  ["country", "degree", "deadline", "description", "eligibility", "amount"]

/-- `SCHOLARSHIP_SCHEMA.constraints` (note: `deadline` has no entry). -/
def constraintsFor (f : String) : Option FieldConstraints :=
  if f = "name" then some ⟨some 3, some 500, false⟩
  else if f = "source" then some ⟨some 2, some 100, false⟩
  else if f = "link" then some ⟨none, none, true⟩
  else if f = "description" then some ⟨none, some 5000, false⟩
  else if f = "eligibility" then some ⟨none, some 3000, false⟩
  else if f = "amount" then some ⟨none, some 200, false⟩
  else if f = "country" then some ⟨none, some 200, false⟩
  else if f = "degree" then some ⟨none, some 200, false⟩
  else none

/-- Test of `/^https?:\/\/.+/`: scheme, then at least one character,
the first of which is not a line terminator (`.` excludes them). -/
def urlShapeTest (s : String) : Bool :=
  let rest :=
    if startsWithStr s "https://" then some (dropStr s 8)
    else if startsWithStr s "http://" then some (dropStr s 7)
    else none
  match rest with
  | none => false
  | some r =>
    match r.data with
    | [] => false
    | c :: _ => c ≠ '\n' && c ≠ '\r' && c.toNat ≠ 8232 && c.toNat ≠ 8233

/-- Message of a missing required field. -/
def reqMsg (f : String) : String :=
  "Required field \x27" ++ f ++ "\x27 is missing or empty"

/-- Message of a minimum-length violation. -/
def minMsg (f : String) (m : Nat) : String :=
  "Field \x27" ++ f ++ "\x27 must be at least " ++ toString m ++ " characters"

/-- Message of a maximum-length excess. -/
def maxMsg (f : String) (m : Nat) : String :=
  "Field \x27" ++ f ++ "\x27 exceeds maximum length of " ++ toString m ++ " characters"

/-- Message of a pattern mismatch. -/
def patMsg (f : String) : String :=
  "Field \x27" ++ f ++ "\x27 does not match required pattern"

/-- `validateFieldConstraints`: pushes a major error for a too-short
value, a warning (only) for a too-long value, and a major error for a
pattern mismatch, in that order. -/
def validateFieldConstraints (f : String) (value : String) :
    List ValidationError × List ValidationWarning :=
  match constraintsFor f with
  | none => ([], [])
  | some c =>
    let minErrs := match c.minLength with
      | some m => if value.length < m then [⟨f, minMsg f m, .major⟩] else []
      | none => []
    let maxWarns : List ValidationWarning := match c.maxLength with
      | some m =>
        if value.length > m then [⟨f, maxMsg f m, some "Value will be truncated"⟩]
        else []
      | none => []
    let patErrs := if c.urlPattern && !urlShapeTest value then
        [⟨f, patMsg f, .major⟩]
      else []
    (minErrs ++ patErrs, maxWarns)

/-- A scholarship record as the validator reads it: each schema field
as an optional string value. -/
structure VScholarship where
  name : Option String
  source : Option String
  link : Option String
  country : Option String
  degree : Option String
  deadline : Option String
  description : Option String
  eligibility : Option String
  amount : Option String

/-- `scholarship[field]` for the schema fields. -/
def getField (r : VScholarship) (f : String) : Option String :=
  if f = "name" then r.name
  else if f = "source" then r.source
  else if f = "link" then r.link
  else if f = "country" then r.country
  else if f = "degree" then r.degree
  else if f = "deadline" then r.deadline
  else if f = "description" then r.description
  else if f = "eligibility" then r.eligibility
  else if f = "amount" then r.amount
  else none

/-- Missing-or-empty test `value === undefined || value === null || value === ''`. -/
def isMissing (v : Option String) : Bool :=
  match v with
  | none => true
  | some s => s = ""

/-- Contribution of one required field: a critical error and a
`continue` when missing or empty, otherwise the constraint checks. -/
def requiredFieldResult (f : String) (v : Option String) :
    List ValidationError × List ValidationWarning :=
  match v with
  | none => ([⟨f, reqMsg f, .critical⟩], [])
  | some s =>
    if s = "" then ([⟨f, reqMsg f, .critical⟩], [])
    else validateFieldConstraints f s

/-- Contribution of one optional field: constraint checks only when a
non-empty value is present. -/
def optionalFieldResult (f : String) (v : Option String) :
    List ValidationError × List ValidationWarning :=
  match v with
  | none => ([], [])
  | some s =>
    if s = "" then ([], [])
    else validateFieldConstraints f s

/-- `ScholarshipValidator.validate`: the required-field loop then the
optional-field loop, errors and warnings accumulated in push order;
`isValid` iff the error list is empty. -/
def validate (r : VScholarship) : ValidationResult :=
  let contributions :=
    requiredFields.map (fun f => requiredFieldResult f (getField r f)) ++
      optionalFields.map (fun f => optionalFieldResult f (getField r f))
  let errors := (contributions.map Prod.fst).flatten
  let warnings := (contributions.map Prod.snd).flatten
  ⟨errors.isEmpty, errors, warnings⟩

/-- Sample record for concrete checks: short name, missing source,
well-formed link, and a 201-character amount. -/
def sampleRecord : VScholarship :=
  ⟨some "ab", none, some "https://x.org", none, none, none, none, none,
    some (String.mk (List.replicate 201 'a'))⟩

/-- Retry scenario operation: throws on the first two invocations
(indices 0 and 1), succeeds with 42 on the third. -/
def scenarioAttempts : Nat → Except String Nat :=
  fun n => if n ≤ 1 then .error "boom" else .ok 42

/-- Failure test on an extractor outcome. -/
def isFailureOutcome (o : Except String (List ρ)) : Bool :=
  match o with
  | .ok _ => false
  | .error _ => true

/-! ## Helper lemmas -/

theorem mem_dedupKeepFirstAux {a : String} :
    ∀ (l seen : List String), a ∈ dedupKeepFirstAux seen l → a ∈ l ∧ a ∉ seen := by
  intro l
  induction l with
  | nil =>
    intro seen h
    simp [dedupKeepFirstAux] at h
  | cons x xs ih =>
    intro seen h
    rw [dedupKeepFirstAux] at h
    by_cases hx : x ∈ seen
    · rw [if_pos hx] at h
      have := ih seen h
      exact ⟨List.mem_cons_of_mem x this.1, this.2⟩
    · rw [if_neg hx] at h
      rcases List.mem_cons.mp h with h1 | h2
      · exact ⟨h1 ▸ List.mem_cons_self x xs, h1 ▸ hx⟩
      · have := ih (x :: seen) h2
        exact ⟨List.mem_cons_of_mem x this.1,
          fun hs => this.2 (List.mem_cons_of_mem x hs)⟩

theorem nodup_dedupKeepFirstAux :
    ∀ (l seen : List String), (dedupKeepFirstAux seen l).Nodup := by
  intro l
  induction l with
  | nil => intro seen; simp [dedupKeepFirstAux]
  | cons x xs ih =>
    intro seen
    rw [dedupKeepFirstAux]
    by_cases hx : x ∈ seen
    · rw [if_pos hx]; exact ih seen
    · rw [if_neg hx]
      refine List.nodup_cons.mpr ⟨fun hmem => ?_, ih (x :: seen)⟩
      exact (mem_dedupKeepFirstAux xs (x :: seen) hmem).2 (List.mem_cons_self x seen)

theorem nodup_dedupKeepFirst (l : List String) : (dedupKeepFirst l).Nodup :=
  nodup_dedupKeepFirstAux l []

theorem waitForSlot_ge (i : ℚ) (st : LimiterState) (now lateness : ℚ)
    (hlate : 0 ≤ lateness) :
    st.lastRequestTime + i ≤ (waitForSlot i st now lateness).1 ∧
      (waitForSlot i st now lateness).2.lastRequestTime =
        (waitForSlot i st now lateness).1 := by
  simp only [waitForSlot]
  split_ifs with h
  · have hx : i - (now - st.lastRequestTime) ≤ 0 := by
      by_contra hc
      push_neg at hc
      rw [max_eq_right hc.le] at h
      exact absurd h (ne_of_gt hc)
    exact ⟨by linarith, rfl⟩
  · have hpos : 0 < i - (now - st.lastRequestTime) := by
      by_contra hc
      push_neg at hc
      exact h (max_eq_left hc)
    rw [max_eq_right hpos.le]
    refine ⟨?_, rfl⟩
    show st.lastRequestTime + i ≤ now + (i - (now - st.lastRequestTime)) + lateness
    linarith

theorem results_filter_fail_length (normalize : r → a) :
    ∀ scrapers : List (String × Except String (List r)),
      ((scrapers.map (scrapeSource normalize)).filter (fun x => !x.success)).length =
        (scrapers.filter (fun p => isFailureOutcome p.2)).length := by
  intro scrapers
  induction scrapers with
  | nil => rfl
  | cons p rest ih =>
    cases hp : p.2 with
    | ok raws => simp [scrapeSource, isFailureOutcome, hp, ih]
    | error msg => simp [scrapeSource, isFailureOutcome, hp, ih]

theorem results_filter_succ_length (normalize : r → a) :
    ∀ scrapers : List (String × Except String (List r)),
      ((scrapers.map (scrapeSource normalize)).filter (fun x => x.success)).length =
        scrapers.length - (scrapers.filter (fun p => isFailureOutcome p.2)).length := by
  intro scrapers
  induction scrapers with
  | nil => rfl
  | cons p rest ih =>
    have hb := List.length_filter_le (fun p : String × Except String (List r) =>
      isFailureOutcome p.2) rest
    cases hp : p.2 with
    | ok raws =>
      simp only [List.map_cons, List.filter_cons, scrapeSource, hp, List.length_cons]
      simp [isFailureOutcome, hp, ih]
      simp only [isFailureOutcome] at hb
      omega
    | error msg =>
      simp only [List.map_cons, List.filter_cons, scrapeSource, hp, List.length_cons]
      simp [isFailureOutcome, hp, ih]

theorem flatten_filter_map_scrape (normalize : r → a) :
    ∀ scrapers : List (String × Except String (List r)),
      ((((scrapers.map (scrapeSource normalize)).filter (fun x => x.success)).map
          (fun x => x.scholarships)).flatten =
        (scrapers.filterMap (fun p =>
          match p.2 with
          | .ok raws => some (raws.map normalize)
          | .error _ => none)).flatten) := by
  intro scrapers
  induction scrapers with
  | nil => rfl
  | cons p rest ih =>
    cases hp : p.2 with
    | ok raws => simp [scrapeSource, hp, List.filterMap_cons, ih]
    | error msg => simp [scrapeSource, hp, List.filterMap_cons, ih]

theorem retryGo_ok_eq (attempts : Nat → Except E A) (b M fuel a : Nat) (v : A)
    (h : attempts a = .ok v) : retryGo attempts b M fuel a = ⟨.ok v, 1, [], []⟩ := by
  cases fuel <;> simp [retryGo, h]

theorem retryGo_err_zero (attempts : Nat → Except E A) (b M a : Nat) (e : E)
    (h : attempts a = .error e) : retryGo attempts b M 0 a = ⟨.error e, 1, [], []⟩ := by
  simp [retryGo, h]

theorem retryGo_err_succ (attempts : Nat → Except E A) (b M fuel a : Nat) (e : E)
    (h : attempts a = .error e) :
    retryGo attempts b M (fuel + 1) a =
      ⟨(retryGo attempts b M fuel (a + 1)).result,
        (retryGo attempts b M fuel (a + 1)).attemptsMade + 1,
        min (b * 2 ^ a) M :: (retryGo attempts b M fuel (a + 1)).delays,
        (a + 1, e) :: (retryGo attempts b M fuel (a + 1)).onRetryCalls⟩ := by
  simp [retryGo, h]

theorem retryGo_shape (attempts : Nat → Except E A) (b M : Nat) :
    ∀ (fuel a : Nat),
      (retryGo attempts b M fuel a).attemptsMade =
          (retryGo attempts b M fuel a).onRetryCalls.length + 1 ∧
        (retryGo attempts b M fuel a).attemptsMade ≤ fuel + 1 ∧
        (retryGo attempts b M fuel a).delays =
          (List.range (retryGo attempts b M fuel a).onRetryCalls.length).map
            (fun j => min (b * 2 ^ (a + j)) M) ∧
        (retryGo attempts b M fuel a).onRetryCalls.map Prod.fst =
          (List.range (retryGo attempts b M fuel a).onRetryCalls.length).map
            (fun j => a + j + 1) := by
  intro fuel
  induction fuel with
  | zero =>
    intro a
    cases h : attempts a with
    | ok v => rw [retryGo_ok_eq attempts b M 0 a v h]; simp
    | error e => rw [retryGo_err_zero attempts b M a e h]; simp
  | succ fuel ih =>
    intro a
    cases h : attempts a with
    | ok v => rw [retryGo_ok_eq attempts b M (fuel + 1) a v h]; simp
    | error e =>
      rw [retryGo_err_succ attempts b M fuel a e h]
      obtain ⟨ih1, ih2, ih3, ih4⟩ := ih (a + 1)
      have hstep : ∀ j, a + 1 + j = a + (j + 1) := by omega
      refine ⟨?_, ?_, ?_, ?_⟩
      · simp [ih1]
      · simp only [List.length_cons]
        omega
      · show min (b * 2 ^ a) M :: (retryGo attempts b M fuel (a + 1)).delays =
          (List.range ((a + 1, e) ::
            (retryGo attempts b M fuel (a + 1)).onRetryCalls).length).map
            (fun j => min (b * 2 ^ (a + j)) M)
        rw [ih3, List.length_cons, List.range_succ_eq_map, List.map_cons, List.map_map]
        simp [Function.comp_def, hstep]
      · show ((a + 1, e) :: (retryGo attempts b M fuel (a + 1)).onRetryCalls).map
            Prod.fst =
          (List.range ((a + 1, e) ::
            (retryGo attempts b M fuel (a + 1)).onRetryCalls).length).map
            (fun j => a + j + 1)
        rw [List.map_cons, ih4, List.length_cons, List.range_succ_eq_map,
          List.map_cons, List.map_map]
        simp only [Function.comp_def, Nat.add_zero]
        congr 1
        apply List.map_congr_left
        intro j _
        omega

theorem retryGo_first_ok (attempts : Nat → Except E A) (b M : Nat) :
    ∀ (k fuel a : Nat) (v : A), k ≤ fuel → attempts (a + k) = .ok v →
      (∀ j, j < k → ∃ e, attempts (a + j) = .error e) →
      (retryGo attempts b M fuel a).result = .ok v ∧
        (retryGo attempts b M fuel a).onRetryCalls.length = k := by
  intro k
  induction k with
  | zero =>
    intro fuel a v _ hok _
    rw [Nat.add_zero] at hok
    rw [retryGo_ok_eq attempts b M fuel a v hok]
    exact ⟨rfl, rfl⟩
  | succ k ih =>
    intro fuel a v hk hok hf
    obtain ⟨e, he⟩ := hf 0 (Nat.succ_pos k)
    rw [Nat.add_zero] at he
    obtain ⟨fuel, rfl⟩ : ∃ f, fuel = f + 1 := ⟨fuel - 1, by omega⟩
    rw [retryGo_err_succ attempts b M fuel a e he]
    have hok2 : attempts (a + 1 + k) = .ok v := by
      rw [show a + 1 + k = a + (k + 1) by omega]
      exact hok
    have hf2 : ∀ j, j < k → ∃ e2, attempts (a + 1 + j) = .error e2 := by
      intro j hj
      obtain ⟨e2, he2⟩ := hf (j + 1) (by omega)
      exact ⟨e2, by rwa [show a + (j + 1) = a + 1 + j by omega] at he2⟩
    have hrec := ih (fuel) (a + 1) v (by omega) hok2 hf2
    exact ⟨hrec.1, by simp [hrec.2]⟩

theorem retryGo_all_fail (attempts : Nat → Except E A) (b M : Nat) (es : Nat → E) :
    ∀ (fuel a : Nat), (∀ j, j ≤ fuel → attempts (a + j) = .error (es (a + j))) →
      (retryGo attempts b M fuel a).result = .error (es (a + fuel)) := by
  intro fuel
  induction fuel with
  | zero =>
    intro a h
    have h0 := h 0 (Nat.le_refl 0)
    rw [Nat.add_zero] at h0
    rw [retryGo_err_zero attempts b M a (es a) h0]
    rfl
  | succ fuel ih =>
    intro a h
    have h0 := h 0 (Nat.zero_le _)
    rw [Nat.add_zero] at h0
    rw [retryGo_err_succ attempts b M fuel a (es a) h0]
    have hrec := ih (a + 1) (fun j hj => by
      have hj2 := h (j + 1) (by omega)
      rwa [show a + (j + 1) = a + 1 + j by omega] at hj2)
    show (retryGo attempts b M fuel (a + 1)).result = .error (es (a + (fuel + 1)))
    rw [hrec, show a + 1 + fuel = a + (fuel + 1) by omega]

theorem vfc_err_field (f v : String) :
    ∀ e ∈ (validateFieldConstraints f v).1, e.field = f := by
  intro e he
  unfold validateFieldConstraints at he
  cases hc : constraintsFor f with
  | none =>
    rw [hc] at he
    simp at he
  | some c =>
    rw [hc] at he
    dsimp only at he
    rcases List.mem_append.mp he with h1 | h1
    · cases hm : c.minLength with
      | none => rw [hm] at h1; simp at h1
      | some m =>
        rw [hm] at h1
        dsimp only at h1
        by_cases hl : v.length < m
        · rw [if_pos hl] at h1
          obtain rfl := List.mem_singleton.mp h1
          rfl
        · rw [if_neg hl] at h1
          simp at h1
    · by_cases hp : (c.urlPattern && !urlShapeTest v) = true
      · rw [if_pos hp] at h1
        obtain rfl := List.mem_singleton.mp h1
        rfl
      · rw [if_neg hp] at h1
        simp at h1

theorem vfc_warn_field (f v : String) :
    ∀ w ∈ (validateFieldConstraints f v).2, w.field = f := by
  intro w hw
  unfold validateFieldConstraints at hw
  cases hc : constraintsFor f with
  | none =>
    rw [hc] at hw
    simp at hw
  | some c =>
    rw [hc] at hw
    dsimp only at hw
    cases hm : c.maxLength with
    | none => rw [hm] at hw; simp at hw
    | some m =>
      rw [hm] at hw
      dsimp only at hw
      by_cases hl : v.length > m
      · rw [if_pos hl] at hw
        obtain rfl := List.mem_singleton.mp hw
        rfl
      · rw [if_neg hl] at hw
        simp at hw

theorem rfr_err_field (g : String) (v : Option String) :
    ∀ e ∈ (requiredFieldResult g v).1, e.field = g := by
  intro e he
  unfold requiredFieldResult at he
  cases v with
  | none =>
    obtain rfl := List.mem_singleton.mp he
    rfl
  | some s =>
    dsimp only at he
    by_cases hs : s = ""
    · rw [if_pos hs] at he
      obtain rfl := List.mem_singleton.mp he
      rfl
    · rw [if_neg hs] at he
      exact vfc_err_field g s e he

theorem rfr_warn_field (g : String) (v : Option String) :
    ∀ w ∈ (requiredFieldResult g v).2, w.field = g := by
  intro w hw
  unfold requiredFieldResult at hw
  cases v with
  | none => simp at hw
  | some s =>
    dsimp only at hw
    by_cases hs : s = ""
    · rw [if_pos hs] at hw
      simp at hw
    · rw [if_neg hs] at hw
      exact vfc_warn_field g s w hw

theorem ofr_err_field (g : String) (v : Option String) :
    ∀ e ∈ (optionalFieldResult g v).1, e.field = g := by
  intro e he
  unfold optionalFieldResult at he
  cases v with
  | none => simp at he
  | some s =>
    dsimp only at he
    by_cases hs : s = ""
    · rw [if_pos hs] at he
      simp at he
    · rw [if_neg hs] at he
      exact vfc_err_field g s e he

theorem ofr_warn_field (g : String) (v : Option String) :
    ∀ w ∈ (optionalFieldResult g v).2, w.field = g := by
  intro w hw
  unfold optionalFieldResult at hw
  cases v with
  | none => simp at hw
  | some s =>
    dsimp only at hw
    by_cases hs : s = ""
    · rw [if_pos hs] at hw
      simp at hw
    · rw [if_neg hs] at hw
      exact vfc_warn_field g s w hw

theorem filter_rfr_nil (g f : String) (v : Option String) (h : g ≠ f) :
    (requiredFieldResult g v).1.filter (fun e => e.field == f) = [] := by
  rw [List.filter_eq_nil_iff]
  intro e he
  have := rfr_err_field g v e he
  simp [this, h]

theorem filter_ofr_nil (g f : String) (v : Option String) (h : g ≠ f) :
    (optionalFieldResult g v).1.filter (fun e => e.field == f) = [] := by
  rw [List.filter_eq_nil_iff]
  intro e he
  have := ofr_err_field g v e he
  simp [this, h]

theorem filter_rfr_warn_nil (g f : String) (v : Option String) (h : g ≠ f) :
    (requiredFieldResult g v).2.filter (fun w => w.field == f) = [] := by
  rw [List.filter_eq_nil_iff]
  intro w hw
  have := rfr_warn_field g v w hw
  simp [this, h]

theorem filter_ofr_warn_nil (g f : String) (v : Option String) (h : g ≠ f) :
    (optionalFieldResult g v).2.filter (fun w => w.field == f) = [] := by
  rw [List.filter_eq_nil_iff]
  intro w hw
  have := ofr_warn_field g v w hw
  simp [this, h]

theorem rfr_missing (g : String) (v : Option String) (h : isMissing v = true) :
    requiredFieldResult g v = ([⟨g, reqMsg g, .critical⟩], []) := by
  cases v with
  | none => rfl
  | some s =>
    have hs : s = "" := by simpa [isMissing] using h
    simp [requiredFieldResult, hs]

theorem rfr_present (g v : String) (hne : v ≠ "") :
    requiredFieldResult g (some v) = validateFieldConstraints g v := by
  simp [requiredFieldResult, hne]

theorem ofr_present (g v : String) (hne : v ≠ "") :
    optionalFieldResult g (some v) = validateFieldConstraints g v := by
  simp [optionalFieldResult, hne]

theorem vfc_min_mem (f v : String) (c : FieldConstraints) (m : Nat)
    (hc : constraintsFor f = some c) (hm : c.minLength = some m)
    (hl : v.length < m) :
    (⟨f, minMsg f m, .major⟩ : ValidationError) ∈ (validateFieldConstraints f v).1 := by
  unfold validateFieldConstraints
  rw [hc]
  dsimp only
  apply List.mem_append.mpr
  left
  rw [hm]
  dsimp only
  rw [if_pos hl]
  exact List.mem_singleton.mpr rfl

theorem vfc_max_mem (f v : String) (c : FieldConstraints) (m : Nat)
    (hc : constraintsFor f = some c) (hm : c.maxLength = some m)
    (hl : v.length > m) :
    (⟨f, maxMsg f m, some "Value will be truncated"⟩ : ValidationWarning) ∈
      (validateFieldConstraints f v).2 := by
  unfold validateFieldConstraints
  rw [hc]
  dsimp only
  rw [hm]
  dsimp only
  rw [if_pos hl]
  exact List.mem_singleton.mpr rfl

theorem validate_errors_eq (r : VScholarship) :
    (validate r).errors =
      (requiredFieldResult "name" (getField r "name")).1 ++
      ((requiredFieldResult "source" (getField r "source")).1 ++
      ((requiredFieldResult "link" (getField r "link")).1 ++
      ((optionalFieldResult "country" (getField r "country")).1 ++
      ((optionalFieldResult "degree" (getField r "degree")).1 ++
      ((optionalFieldResult "deadline" (getField r "deadline")).1 ++
      ((optionalFieldResult "description" (getField r "description")).1 ++
      ((optionalFieldResult "eligibility" (getField r "eligibility")).1 ++
      ((optionalFieldResult "amount" (getField r "amount")).1 ++ [])))))))) := rfl

theorem validate_warnings_eq (r : VScholarship) :
    (validate r).warnings =
      (requiredFieldResult "name" (getField r "name")).2 ++
      ((requiredFieldResult "source" (getField r "source")).2 ++
      ((requiredFieldResult "link" (getField r "link")).2 ++
      ((optionalFieldResult "country" (getField r "country")).2 ++
      ((optionalFieldResult "degree" (getField r "degree")).2 ++
      ((optionalFieldResult "deadline" (getField r "deadline")).2 ++
      ((optionalFieldResult "description" (getField r "description")).2 ++
      ((optionalFieldResult "eligibility" (getField r "eligibility")).2 ++
      ((optionalFieldResult "amount" (getField r "amount")).2 ++ [])))))))) := rfl

/-! ## Claim theorems -/

theorem extractMaxFromRange_eq_max (s : String) :
    extractMaxFromRange (some s) = (extractAllNumericValues s).max? := by
  cases h : extractAllNumericValues s with
  | nil => simp [extractMaxFromRange, h]
  | cons x xs =>
    cases xs with
    | nil => simp [extractMaxFromRange, h]
    | cons y ys => simp [extractMaxFromRange, h, List.max?]

/-- C3: an amount string that matches a range pattern and contains no
full-coverage or variable keyword parses with `isRange = true` and
`value` equal to the maximum of all numeric tokens extracted after
currency stripping and comma-grouped parsing; with exactly two tokens
the value is their max, with exactly one token it is that token; and
`"$5,000 - $10,000"` parses to value 10000 with `isRange` true. -/
theorem parse_range_spec :
    (∀ s : String, isRangeFormat s = true →
      isFullCoverage (jsTrim (strLower s)) = false →
      (variableKeywords.any fun k => strContains (jsTrim (strLower s)) k) = false →
      (parse (some s)).isRange = true ∧
        (parse (some s)).value = (extractAllNumericValues s).max? ∧
        (∀ a b : ℚ, extractAllNumericValues s = [a, b] →
          (parse (some s)).value = some (max a b)) ∧
        (∀ a : ℚ, extractAllNumericValues s = [a] →
          (parse (some s)).value = some a)) ∧
      parse (some "$5,000 - $10,000") =
        ⟨some 10000, true, false, false, "$5,000 - $10,000"⟩ := by
  constructor
  · intro s hrange hfull hvar
    have hne : s ≠ "" := by
      intro he
      rw [he] at hrange
      exact absurd hrange (by decide)
    have hparse : parse (some s) =
        ⟨extractMaxFromRange (some s), isRangeFormat s, false, false, s⟩ := by
      simp [parse, hne, hfull, hvar, hrange]
    refine ⟨by rw [hparse]; exact hrange, ?_, ?_, ?_⟩
    · rw [hparse]
      exact extractMaxFromRange_eq_max s
    · intro a b hab
      rw [hparse]
      show extractMaxFromRange (some s) = some (max a b)
      rw [extractMaxFromRange_eq_max s, hab]
      simp [List.max?]
    · intro a ha
      rw [hparse]
      show extractMaxFromRange (some s) = some a
      rw [extractMaxFromRange_eq_max s, ha]
      simp [List.max?]
  · decide

/-- C3 witness: the general statement applied at `"$5,000 - $10,000"`,
whose token list is `[5000, 10000]`. -/
theorem parse_range_spec_witness :
    (parse (some "$5,000 - $10,000")).isRange = true ∧
      (parse (some "$5,000 - $10,000")).value = some (max 5000 10000) :=
  ⟨(parse_range_spec.1 "$5,000 - $10,000" (by decide) (by decide) (by decide)).1,
   (parse_range_spec.1 "$5,000 - $10,000" (by decide) (by decide) (by decide)).2.2.1
     5000 10000 (by decide)⟩

/-- C6: `validate` reports one critical error and no warnings for each
missing or empty required field (skipping its constraint checks); a
present field shorter than the configured minimum yields a major error
in the error list; a field longer than the configured maximum yields
only a warning (no error when the other constraints are met), and the
warning reaches the record's warning list; `isValid` is true iff the
error list is empty, so warnings never affect validity. -/
theorem validate_spec :
    (∀ r : VScholarship, ((validate r).isValid = true ↔ (validate r).errors = [])) ∧
    (∀ r : VScholarship, ∀ f ∈ requiredFields, isMissing (getField r f) = true →
      (validate r).errors.filter (fun e => e.field == f) =
          [⟨f, reqMsg f, .critical⟩] ∧
        (validate r).warnings.filter (fun w => w.field == f) = []) ∧
    (∀ (r : VScholarship) (f : String), (f ∈ requiredFields ∨ f ∈ optionalFields) →
      ∀ (v : String) (c : FieldConstraints) (m : Nat), getField r f = some v →
        v ≠ "" → constraintsFor f = some c → c.minLength = some m →
        v.length < m →
        (⟨f, minMsg f m, .major⟩ : ValidationError) ∈ (validate r).errors) ∧
    (∀ (f v : String) (c : FieldConstraints) (m : Nat), constraintsFor f = some c →
      c.maxLength = some m → v.length > m →
      (⟨f, maxMsg f m, some "Value will be truncated"⟩ : ValidationWarning) ∈
          (validateFieldConstraints f v).2 ∧
        ((∀ m2, c.minLength = some m2 → m2 ≤ v.length) →
          (c.urlPattern = true → urlShapeTest v = true) →
          (validateFieldConstraints f v).1 = [])) ∧
    (∀ (r : VScholarship) (f : String), (f ∈ requiredFields ∨ f ∈ optionalFields) →
      ∀ (v : String) (c : FieldConstraints) (m : Nat), getField r f = some v →
        v ≠ "" → constraintsFor f = some c → c.maxLength = some m →
        v.length > m →
        (⟨f, maxMsg f m, some "Value will be truncated"⟩ : ValidationWarning) ∈
          (validate r).warnings) := by
  refine ⟨?_, ?_, ?_, ?_, ?_⟩
  · intro r
    show ((validate r).errors.isEmpty = true ↔ (validate r).errors = [])
    exact List.isEmpty_iff
  · intro r f hf hmiss
    have hf3 : f = "name" ∨ f = "source" ∨ f = "link" := by
      simpa [requiredFields] using hf
    rcases hf3 with rfl | rfl | rfl
    · have hb := rfr_missing "name" (getField r "name") hmiss
      constructor
      · rw [validate_errors_eq r]
        simp only [List.filter_append, hb,
          filter_rfr_nil "source" "name" (getField r "source") (by decide),
          filter_rfr_nil "link" "name" (getField r "link") (by decide),
          filter_ofr_nil "country" "name" (getField r "country") (by decide),
          filter_ofr_nil "degree" "name" (getField r "degree") (by decide),
          filter_ofr_nil "deadline" "name" (getField r "deadline") (by decide),
          filter_ofr_nil "description" "name" (getField r "description") (by decide),
          filter_ofr_nil "eligibility" "name" (getField r "eligibility") (by decide),
          filter_ofr_nil "amount" "name" (getField r "amount") (by decide)]
        simp
      · rw [validate_warnings_eq r]
        simp only [List.filter_append, hb,
          filter_rfr_warn_nil "source" "name" (getField r "source") (by decide),
          filter_rfr_warn_nil "link" "name" (getField r "link") (by decide),
          filter_ofr_warn_nil "country" "name" (getField r "country") (by decide),
          filter_ofr_warn_nil "degree" "name" (getField r "degree") (by decide),
          filter_ofr_warn_nil "deadline" "name" (getField r "deadline") (by decide),
          filter_ofr_warn_nil "description" "name" (getField r "description") (by decide),
          filter_ofr_warn_nil "eligibility" "name" (getField r "eligibility") (by decide),
          filter_ofr_warn_nil "amount" "name" (getField r "amount") (by decide)]
        simp
    · have hb := rfr_missing "source" (getField r "source") hmiss
      constructor
      · rw [validate_errors_eq r]
        simp only [List.filter_append, hb,
          filter_rfr_nil "name" "source" (getField r "name") (by decide),
          filter_rfr_nil "link" "source" (getField r "link") (by decide),
          filter_ofr_nil "country" "source" (getField r "country") (by decide),
          filter_ofr_nil "degree" "source" (getField r "degree") (by decide),
          filter_ofr_nil "deadline" "source" (getField r "deadline") (by decide),
          filter_ofr_nil "description" "source" (getField r "description") (by decide),
          filter_ofr_nil "eligibility" "source" (getField r "eligibility") (by decide),
          filter_ofr_nil "amount" "source" (getField r "amount") (by decide)]
        simp
      · rw [validate_warnings_eq r]
        simp only [List.filter_append, hb,
          filter_rfr_warn_nil "name" "source" (getField r "name") (by decide),
          filter_rfr_warn_nil "link" "source" (getField r "link") (by decide),
          filter_ofr_warn_nil "country" "source" (getField r "country") (by decide),
          filter_ofr_warn_nil "degree" "source" (getField r "degree") (by decide),
          filter_ofr_warn_nil "deadline" "source" (getField r "deadline") (by decide),
          filter_ofr_warn_nil "description" "source" (getField r "description") (by decide),
          filter_ofr_warn_nil "eligibility" "source" (getField r "eligibility") (by decide),
          filter_ofr_warn_nil "amount" "source" (getField r "amount") (by decide)]
        simp
    · have hb := rfr_missing "link" (getField r "link") hmiss
      constructor
      · rw [validate_errors_eq r]
        simp only [List.filter_append, hb,
          filter_rfr_nil "name" "link" (getField r "name") (by decide),
          filter_rfr_nil "source" "link" (getField r "source") (by decide),
          filter_ofr_nil "country" "link" (getField r "country") (by decide),
          filter_ofr_nil "degree" "link" (getField r "degree") (by decide),
          filter_ofr_nil "deadline" "link" (getField r "deadline") (by decide),
          filter_ofr_nil "description" "link" (getField r "description") (by decide),
          filter_ofr_nil "eligibility" "link" (getField r "eligibility") (by decide),
          filter_ofr_nil "amount" "link" (getField r "amount") (by decide)]
        simp
      · rw [validate_warnings_eq r]
        simp only [List.filter_append, hb,
          filter_rfr_warn_nil "name" "link" (getField r "name") (by decide),
          filter_rfr_warn_nil "source" "link" (getField r "source") (by decide),
          filter_ofr_warn_nil "country" "link" (getField r "country") (by decide),
          filter_ofr_warn_nil "degree" "link" (getField r "degree") (by decide),
          filter_ofr_warn_nil "deadline" "link" (getField r "deadline") (by decide),
          filter_ofr_warn_nil "description" "link" (getField r "description") (by decide),
          filter_ofr_warn_nil "eligibility" "link" (getField r "eligibility") (by decide),
          filter_ofr_warn_nil "amount" "link" (getField r "amount") (by decide)]
        simp
  · intro r f hf v c m hv hne hc hm hl
    have herr := vfc_min_mem f v c m hc hm hl
    rcases hf with hf | hf
    · have hf3 : f = "name" ∨ f = "source" ∨ f = "link" := by
        simpa [requiredFields] using hf
      rcases hf3 with rfl | rfl | rfl
      · have hb : requiredFieldResult "name" (getField r "name") =
            validateFieldConstraints "name" v := by
          rw [hv]; exact rfr_present "name" v hne
        rw [validate_errors_eq r, hb]
        exact List.mem_append_left _ herr
      · have hb : requiredFieldResult "source" (getField r "source") =
            validateFieldConstraints "source" v := by
          rw [hv]; exact rfr_present "source" v hne
        rw [validate_errors_eq r, hb]
        exact List.mem_append_right _ (List.mem_append_left _ herr)
      · have hb : requiredFieldResult "link" (getField r "link") =
            validateFieldConstraints "link" v := by
          rw [hv]; exact rfr_present "link" v hne
        rw [validate_errors_eq r, hb]
        exact List.mem_append_right _ (List.mem_append_right _
          (List.mem_append_left _ herr))
    · have hf6 : f = "country" ∨ f = "degree" ∨ f = "deadline" ∨
          f = "description" ∨ f = "eligibility" ∨ f = "amount" := by
        simpa [optionalFields] using hf
      rcases hf6 with rfl | rfl | rfl | rfl | rfl | rfl
      · have hb : optionalFieldResult "country" (getField r "country") =
            validateFieldConstraints "country" v := by
          rw [hv]; exact ofr_present "country" v hne
        rw [validate_errors_eq r, hb]
        exact List.mem_append_right _ (List.mem_append_right _
          (List.mem_append_right _ (List.mem_append_left _ herr)))
      · have hb : optionalFieldResult "degree" (getField r "degree") =
            validateFieldConstraints "degree" v := by
          rw [hv]; exact ofr_present "degree" v hne
        rw [validate_errors_eq r, hb]
        exact List.mem_append_right _ (List.mem_append_right _
          (List.mem_append_right _ (List.mem_append_right _
            (List.mem_append_left _ herr))))
      · rw [show constraintsFor "deadline" = (none : Option FieldConstraints)
            from rfl] at hc
        exact Option.noConfusion hc
      · have hb : optionalFieldResult "description" (getField r "description") =
            validateFieldConstraints "description" v := by
          rw [hv]; exact ofr_present "description" v hne
        rw [validate_errors_eq r, hb]
        exact List.mem_append_right _ (List.mem_append_right _
          (List.mem_append_right _ (List.mem_append_right _
            (List.mem_append_right _ (List.mem_append_right _
              (List.mem_append_left _ herr))))))
      · have hb : optionalFieldResult "eligibility" (getField r "eligibility") =
            validateFieldConstraints "eligibility" v := by
          rw [hv]; exact ofr_present "eligibility" v hne
        rw [validate_errors_eq r, hb]
        exact List.mem_append_right _ (List.mem_append_right _
          (List.mem_append_right _ (List.mem_append_right _
            (List.mem_append_right _ (List.mem_append_right _
              (List.mem_append_right _ (List.mem_append_left _ herr)))))))
      · have hb : optionalFieldResult "amount" (getField r "amount") =
            validateFieldConstraints "amount" v := by
          rw [hv]; exact ofr_present "amount" v hne
        rw [validate_errors_eq r, hb]
        exact List.mem_append_right _ (List.mem_append_right _
          (List.mem_append_right _ (List.mem_append_right _
            (List.mem_append_right _ (List.mem_append_right _
              (List.mem_append_right _ (List.mem_append_right _
                (List.mem_append_left _ herr))))))))
  · intro f v c m hc hm hl
    refine ⟨vfc_max_mem f v c m hc hm hl, ?_⟩
    intro hmin hpat
    have hpat2 : (c.urlPattern && !urlShapeTest v) = false := by
      cases hp : c.urlPattern with
      | false => rfl
      | true => simp [hp, hpat hp]
    unfold validateFieldConstraints
    rw [hc]
    dsimp only
    rw [hpat2]
    cases hm2 : c.minLength with
    | none => simp
    | some m2 =>
      have hge := hmin m2 hm2
      dsimp only
      rw [if_neg (by omega)]
      simp
  · intro r f hf v c m hv hne hc hm hl
    have hwarn := vfc_max_mem f v c m hc hm hl
    rcases hf with hf | hf
    · have hf3 : f = "name" ∨ f = "source" ∨ f = "link" := by
        simpa [requiredFields] using hf
      rcases hf3 with rfl | rfl | rfl
      · have hb : requiredFieldResult "name" (getField r "name") =
            validateFieldConstraints "name" v := by
          rw [hv]; exact rfr_present "name" v hne
        rw [validate_warnings_eq r, hb]
        exact List.mem_append_left _ hwarn
      · have hb : requiredFieldResult "source" (getField r "source") =
            validateFieldConstraints "source" v := by
          rw [hv]; exact rfr_present "source" v hne
        rw [validate_warnings_eq r, hb]
        exact List.mem_append_right _ (List.mem_append_left _ hwarn)
      · have hb : requiredFieldResult "link" (getField r "link") =
            validateFieldConstraints "link" v := by
          rw [hv]; exact rfr_present "link" v hne
        rw [validate_warnings_eq r, hb]
        exact List.mem_append_right _ (List.mem_append_right _
          (List.mem_append_left _ hwarn))
    · have hf6 : f = "country" ∨ f = "degree" ∨ f = "deadline" ∨
          f = "description" ∨ f = "eligibility" ∨ f = "amount" := by
        simpa [optionalFields] using hf
      rcases hf6 with rfl | rfl | rfl | rfl | rfl | rfl
      · have hb : optionalFieldResult "country" (getField r "country") =
            validateFieldConstraints "country" v := by
          rw [hv]; exact ofr_present "country" v hne
        rw [validate_warnings_eq r, hb]
        exact List.mem_append_right _ (List.mem_append_right _
          (List.mem_append_right _ (List.mem_append_left _ hwarn)))
      · have hb : optionalFieldResult "degree" (getField r "degree") =
            validateFieldConstraints "degree" v := by
          rw [hv]; exact ofr_present "degree" v hne
        rw [validate_warnings_eq r, hb]
        exact List.mem_append_right _ (List.mem_append_right _
          (List.mem_append_right _ (List.mem_append_right _
            (List.mem_append_left _ hwarn))))
      · rw [show constraintsFor "deadline" = (none : Option FieldConstraints)
            from rfl] at hc
        exact Option.noConfusion hc
      · have hb : optionalFieldResult "description" (getField r "description") =
            validateFieldConstraints "description" v := by
          rw [hv]; exact ofr_present "description" v hne
        rw [validate_warnings_eq r, hb]
        exact List.mem_append_right _ (List.mem_append_right _
          (List.mem_append_right _ (List.mem_append_right _
            (List.mem_append_right _ (List.mem_append_right _
              (List.mem_append_left _ hwarn))))))
      · have hb : optionalFieldResult "eligibility" (getField r "eligibility") =
            validateFieldConstraints "eligibility" v := by
          rw [hv]; exact ofr_present "eligibility" v hne
        rw [validate_warnings_eq r, hb]
        exact List.mem_append_right _ (List.mem_append_right _
          (List.mem_append_right _ (List.mem_append_right _
            (List.mem_append_right _ (List.mem_append_right _
              (List.mem_append_right _ (List.mem_append_left _ hwarn)))))))
      · have hb : optionalFieldResult "amount" (getField r "amount") =
            validateFieldConstraints "amount" v := by
          rw [hv]; exact ofr_present "amount" v hne
        rw [validate_warnings_eq r, hb]
        exact List.mem_append_right _ (List.mem_append_right _
          (List.mem_append_right _ (List.mem_append_right _
            (List.mem_append_right _ (List.mem_append_right _
              (List.mem_append_right _ (List.mem_append_right _
                (List.mem_append_left _ hwarn))))))))

/-- C2: `executeWithRetry` makes at most `retries + 1` attempts; each
re-attempt is preceded by exactly one `onRetry` call (numbered from 1,
never before the first attempt) and one backoff delay
`min(baseDelay * 2^attempt, maxDelay)` with `attempt` counted from 0
for the first retry; a first-time success returns the operation's
value; when every attempt fails the final error is re-raised unchanged;
and the scenario failing on attempts 1 and 2 with success on attempt 3
under `retries = 3` returns 42 with `onRetry` invoked exactly twice. -/
theorem executeWithRetry_spec :
    (∀ (E A : Type) (attempts : Nat → Except E A) (retries b M : Nat),
      (executeWithRetry attempts retries b M).attemptsMade ≤ retries + 1 ∧
        (executeWithRetry attempts retries b M).attemptsMade =
          (executeWithRetry attempts retries b M).onRetryCalls.length + 1 ∧
        (executeWithRetry attempts retries b M).delays =
          (List.range (executeWithRetry attempts retries b M).onRetryCalls.length).map
            (fun j => min (b * 2 ^ j) M) ∧
        (executeWithRetry attempts retries b M).onRetryCalls.map Prod.fst =
          (List.range (executeWithRetry attempts retries b M).onRetryCalls.length).map
            (fun j => j + 1)) ∧
    (∀ (E A : Type) (attempts : Nat → Except E A) (retries b M : Nat) (v : A),
      attempts 0 = .ok v →
        executeWithRetry attempts retries b M = ⟨.ok v, 1, [], []⟩) ∧
    (∀ (E A : Type) (attempts : Nat → Except E A) (retries b M k : Nat) (v : A),
      k ≤ retries → attempts k = .ok v →
      (∀ j, j < k → ∃ e, attempts j = .error e) →
      (executeWithRetry attempts retries b M).result = .ok v ∧
        (executeWithRetry attempts retries b M).onRetryCalls.length = k) ∧
    (∀ (E A : Type) (attempts : Nat → Except E A) (retries b M : Nat) (es : Nat → E),
      (∀ j, j ≤ retries → attempts j = .error (es j)) →
      (executeWithRetry attempts retries b M).result = .error (es retries)) ∧
    executeWithRetry scenarioAttempts 3 1000 10000 =
      ⟨.ok 42, 3, [1000, 2000], [(1, "boom"), (2, "boom")]⟩ := by
  refine ⟨?_, ?_, ?_, ?_, ?_⟩
  · intro E A attempts retries b M
    unfold executeWithRetry
    obtain ⟨h1, h2, h3, h4⟩ := retryGo_shape attempts b M retries 0
    simp only [Nat.zero_add] at h1 h3 h4
    exact ⟨by rw [h1]; omega, h1, h3, h4⟩
  · intro E A attempts retries b M v h
    exact retryGo_ok_eq attempts b M retries 0 v h
  · intro E A attempts retries b M k v hk hok hf
    have := retryGo_first_ok attempts b M k retries 0 v hk
      (by rwa [Nat.zero_add]) (fun j hj => by
        obtain ⟨e, he⟩ := hf j hj
        exact ⟨e, by rwa [Nat.zero_add]⟩)
    exact this
  · intro E A attempts retries b M es h
    have := retryGo_all_fail attempts b M es retries 0 (fun j hj => by
      have := h j hj
      rwa [Nat.zero_add])
    rwa [Nat.zero_add] at this
  · rfl

/-- C2 witness: the general first-success clause applied to the
scenario operation — result 42 with exactly two retry callbacks. -/
theorem executeWithRetry_spec_witness :
    (executeWithRetry scenarioAttempts 3 1000 10000).result = .ok 42 ∧
      (executeWithRetry scenarioAttempts 3 1000 10000).onRetryCalls.length = 2 :=
  executeWithRetry_spec.2.2.1 String Nat scenarioAttempts 3 1000 10000 2 42
    (by omega) (by rfl)
    (fun j hj => ⟨"boom", by
      have hle : j ≤ 1 := by omega
      simp [scenarioAttempts, hle]⟩)

/-- C1: `scrapeAll` is total (no exception escapes the model); with
`K` failing extractors among `N`, `failedSources = K` and
`successfulSources = N - K`; the result list mirrors the submitted
extractor list in order; every failed extractor is recorded as a
`ScraperResult` with `success = false`, no records, and its error
message; and `getScholarships` returns exactly the normalized records
of the successful sources, in source submission order and within-source
extraction order. -/
theorem scrapeAll_spec (r a : Type) (normalize : r → a)
    (scrapers : List (String × Except String (List r))) :
    (scrapeAll normalize scrapers).failedSources =
        (scrapers.filter (fun p => isFailureOutcome p.2)).length ∧
      (scrapeAll normalize scrapers).successfulSources =
        scrapers.length - (scrapers.filter (fun p => isFailureOutcome p.2)).length ∧
      (scrapeAll normalize scrapers).results = scrapers.map (scrapeSource normalize) ∧
      (∀ name msg, (name, Except.error msg) ∈ scrapers →
        ({ source := name, scholarships := [], count := 0, processingTime := 0,
           success := false, error := some msg } : ScraperResult a) ∈
          (scrapeAll normalize scrapers).results) ∧
      getScholarships (scrapeAll normalize scrapers) =
        (scrapers.filterMap (fun p =>
          match p.2 with
          | .ok raws => some (raws.map normalize)
          | .error _ => none)).flatten := by
  refine ⟨results_filter_fail_length normalize scrapers,
    results_filter_succ_length normalize scrapers, rfl, ?_, ?_⟩
  · intro name msg hmem
    have h := List.mem_map_of_mem (scrapeSource normalize) hmem
    exact h
  · exact flatten_filter_map_scrape normalize scrapers

/-- C1 witness: three extractors, one failing — the summary counts one
failure and two successes, records the failure with its message, and
`getScholarships` returns only the successful sources' records in
order. -/
theorem scrapeAll_spec_witness :
    (scrapeAll (fun n : Nat => n + 1)
        [("A", .ok [1, 2]), ("B", .error "down"), ("C", .ok [3])]).failedSources = 1 ∧
      (scrapeAll (fun n : Nat => n + 1)
        [("A", .ok [1, 2]), ("B", .error "down"), ("C", .ok [3])]).successfulSources = 2 ∧
      ({ source := "B", scholarships := [], count := 0, processingTime := 0,
         success := false, error := some "down" } : ScraperResult Nat) ∈
        (scrapeAll (fun n : Nat => n + 1)
          [("A", .ok [1, 2]), ("B", .error "down"), ("C", .ok [3])]).results ∧
      getScholarships (scrapeAll (fun n : Nat => n + 1)
        [("A", .ok [1, 2]), ("B", .error "down"), ("C", .ok [3])]) = [2, 3, 4] := by
  have h := scrapeAll_spec Nat Nat (fun n => n + 1)
    [("A", .ok [1, 2]), ("B", .error "down"), ("C", .ok [3])]
  refine ⟨?_, ?_, ?_, ?_⟩
  · rw [h.1]; rfl
  · rw [h.2.1]; rfl
  · exact h.2.2.2.1 "B" "down" (by simp)
  · rw [h.2.2.2.2]; rfl

/-- C4: the specification's scenario says `normalizeDate "31/12/2024"`
yields `"2024-12-31T00:00:00.000Z"`, but the code reads the slash form
as MM/DD/YYYY, so it builds `new Date(2024, 30, 12)`, which JavaScript
rolls over to July 12, 2026; the emitted ISO string is
`"2026-07-12T00:00:00.000Z"`. -/
theorem normalizeDate_dec31_rollover :
    normalizeDate "31/12/2024" = "2026-07-12T00:00:00.000Z" ∧
      normalizeDate "31/12/2024" ≠ "2024-12-31T00:00:00.000Z" := by
  constructor
  · decide
  · decide

/-- C5: `normalizeDegree` returns a duplicate-free list for every
input (single string or array), and `"MS/PhD"` normalizes to exactly
`{"Masters", "PhD"}`. -/
theorem normalizeDegree_spec :
    (∀ input : DegreeInput, (normalizeDegree input).Nodup) ∧
      normalizeDegree (.one "MS/PhD") = ["Masters", "PhD"] :=
  ⟨fun _ => nodup_dedupKeepFirst _, by decide⟩

/-- C7 counterexample: on the input `" https://"` the claim requires
the trimmed (possibly prefixed) string `"https://"` back after the
failed validation, but `normalizeURL` returns the original untrimmed
argument `" https://"`. -/
theorem normalizeURL_counterexample :
    normalizeURL " https://" = " https://" ∧
      normalizeURL " https://" ≠ "https://" := by
  constructor
  · decide
  · decide

/-- C7 amended: `normalizeURL` trims its argument; when the trimmed
string has no `http://`/`https://` scheme it returns it with
`https://` prepended and performs no validation; when a scheme is
present it validates the trimmed string, returns it on success, and on
failure returns the original input unchanged (not the trimmed one).
It never throws, being a total function. -/
theorem normalizeURL_spec (url : String) :
    (¬(startsWithStr (jsTrim url) "http://" = true ∨
        startsWithStr (jsTrim url) "https://" = true) →
      normalizeURL url = "https://" ++ jsTrim url) ∧
    ((startsWithStr (jsTrim url) "http://" = true ∨
        startsWithStr (jsTrim url) "https://" = true) →
      jsURLOk (jsTrim url) = true → normalizeURL url = jsTrim url) ∧
    ((startsWithStr (jsTrim url) "http://" = true ∨
        startsWithStr (jsTrim url) "https://" = true) →
      jsURLOk (jsTrim url) = false → normalizeURL url = url) := by
  refine ⟨fun h => ?_, fun h hok => ?_, fun h hbad => ?_⟩
  · push_neg at h
    simp only [Bool.not_eq_true] at h
    simp [normalizeURL, h.1, h.2]
  · have h1 : (!startsWithStr (jsTrim url) "http://" &&
        !startsWithStr (jsTrim url) "https://") = false := by
      rcases h with h | h <;> simp [h]
    simp [normalizeURL, h1, hok]
  · have h1 : (!startsWithStr (jsTrim url) "http://" &&
        !startsWithStr (jsTrim url) "https://") = false := by
      rcases h with h | h <;> simp [h]
    simp [normalizeURL, h1, hbad]

/-- C7 witness: the three branches of the amended statement at concrete
inputs — a schemeless string is prefixed, a valid URL is returned
trimmed, an invalid one returns the original input. -/
theorem normalizeURL_spec_witness :
    normalizeURL "example.com" = "https://" ++ jsTrim "example.com" ∧
      normalizeURL " https://ok.org " = jsTrim " https://ok.org " ∧
      normalizeURL " https://" = " https://" :=
  ⟨(normalizeURL_spec "example.com").1 (by decide),
   (normalizeURL_spec " https://ok.org ").2.1 (by decide) (by decide),
   (normalizeURL_spec " https://").2.2 (by decide) (by decide)⟩

/-- C8: `isWithinDays` is false for every past deadline and every
nonnegative `days`; in general it is true iff `daysUntil` is non-null,
nonnegative and at most `days`. -/
theorem isWithinDays_spec :
    (∀ (deadline : Option Int) (nowDay days k : Int),
        daysUntil deadline nowDay = some k → k < 0 → 0 ≤ days →
        isWithinDays deadline nowDay days = false) ∧
    (∀ (deadline : Option Int) (nowDay days : Int),
        isWithinDays deadline nowDay days = true ↔
          ∃ k, daysUntil deadline nowDay = some k ∧ 0 ≤ k ∧ k ≤ days) := by
  constructor
  · intro deadline nowDay days k hk hneg _
    cases deadline with
    | none => simp [daysUntil] at hk
    | some d =>
      simp only [daysUntil, Option.some.injEq] at hk
      have : ¬(0 ≤ d - nowDay) := by omega
      simp [isWithinDays, daysUntil, this]
  · intro deadline nowDay days
    cases deadline with
    | none => simp [isWithinDays, daysUntil]
    | some d => simp [isWithinDays, daysUntil]

/-- C8 witness: a deadline five days past is not within three days; a
deadline two days ahead satisfies the general characterization. -/
theorem isWithinDays_spec_witness :
    isWithinDays (some 5) 10 3 = false ∧
      (isWithinDays (some 12) 10 30 = true ↔
        ∃ k, daysUntil (some 12) 10 = some k ∧ 0 ≤ k ∧ k ≤ 30) :=
  ⟨isWithinDays_spec.1 (some 5) 10 3 (-5) (by decide) (by decide) (by decide),
   isWithinDays_spec.2 (some 12) 10 30⟩

/-- C9: through one limiter instance with rate `requestsPerSecond`, a
call granted after a previous invocation begins no earlier than
`1000 / requestsPerSecond` ms after the recorded timestamp of that
invocation (timers fire no earlier than scheduled); `throttle` then
executes the operation at that instant, returns its result, and
records the instant, serializing the sequential calls it models. -/
theorem throttle_spec (A : Type) (requestsPerSecond : ℚ) (st : LimiterState)
    (now lateness : ℚ) (op : ℚ → A)
    (_hrate : 0 < requestsPerSecond) (hlate : 0 ≤ lateness) :
    st.lastRequestTime + 1000 / requestsPerSecond ≤
        (throttle (1000 / requestsPerSecond) st now lateness op).2.1 ∧
      (throttle (1000 / requestsPerSecond) st now lateness op).1 =
        op (throttle (1000 / requestsPerSecond) st now lateness op).2.1 ∧
      ((throttle (1000 / requestsPerSecond) st now lateness op).2.2).lastRequestTime =
        (throttle (1000 / requestsPerSecond) st now lateness op).2.1 := by
  have hw := waitForSlot_ge (1000 / requestsPerSecond) st now lateness hlate
  exact ⟨hw.1, rfl, hw.2⟩

/-- C9 witness: rate 2 req/s, previous call recorded at t=0, next call
arriving at t=100 begins at t=500 = 0 + 1000/2. -/
theorem throttle_spec_witness :
    (0 : ℚ) + 1000 / 2 ≤ (throttle (1000 / 2) ⟨0⟩ 100 0 (fun t => t)).2.1 ∧
      (throttle ((1000 : ℚ) / 2) ⟨0⟩ 100 0 (fun t => t)).1 =
        (throttle ((1000 : ℚ) / 2) ⟨0⟩ 100 0 (fun t => t)).2.1 ∧
      ((throttle ((1000 : ℚ) / 2) ⟨0⟩ 100 0 (fun t => t)).2.2).lastRequestTime =
        (throttle ((1000 : ℚ) / 2) ⟨0⟩ 100 0 (fun t => t)).2.1 :=
  throttle_spec ℚ 2 ⟨0⟩ 100 0 (fun t => t) (by norm_num) (by norm_num)

/-- C10: with an empty extractor list, `scrapeAll` returns zero total
scholarships and an empty result list, and `successRate` is the JS
value `(0/0) * 100 = NaN`, not a percentage in `[0, 100]`. -/
theorem scrapeAll_empty_nan (ρ α : Type) (normalize : ρ → α) :
    (scrapeAll normalize ([] : List (String × Except String (List ρ)))).totalScholarships = 0 ∧
      (scrapeAll normalize ([] : List (String × Except String (List ρ)))).results = [] ∧
      (scrapeAll normalize ([] : List (String × Except String (List ρ)))).successRate = JSNum.nan ∧
      ∀ q : ℚ, 0 ≤ q → q ≤ 100 →
        (scrapeAll normalize ([] : List (String × Except String (List ρ)))).successRate ≠
          JSNum.num q := by
  refine ⟨rfl, rfl, ?_, ?_⟩
  · simp [scrapeAll, jsDiv, jsMulFin]
  · intro q _ _ h
    rw [show (scrapeAll normalize ([] : List (String × Except String (List ρ)))).successRate =
        JSNum.nan by simp [scrapeAll, jsDiv, jsMulFin]] at h
    exact JSNum.noConfusion h

/-- C10 witness: the statement instantiated with the identity
normalizer at `q = 50`. -/
theorem scrapeAll_empty_nan_witness :
    (scrapeAll (fun r : Nat => r) ([] : List (String × Except String (List Nat)))).successRate =
        JSNum.nan ∧
      (scrapeAll (fun r : Nat => r) ([] : List (String × Except String (List Nat)))).successRate ≠
        JSNum.num 50 :=
  ⟨(scrapeAll_empty_nan Nat Nat (fun r => r)).2.2.1,
   (scrapeAll_empty_nan Nat Nat (fun r => r)).2.2.2 50 (by norm_num) (by norm_num)⟩

set_option maxRecDepth 8000 in
/-- C6 witness: the general statement applied to `sampleRecord` — the
missing `source` yields exactly one critical error and no warning for
that field, the too-short `name` contributes a major error, the
201-character `amount` contributes the truncation warning, and the
max-length check alone produces no error. -/
theorem validate_spec_witness :
    ((validate sampleRecord).isValid = true ↔ (validate sampleRecord).errors = []) ∧
      (validate sampleRecord).errors.filter (fun e => e.field == "source") =
        [⟨"source", reqMsg "source", .critical⟩] ∧
      (⟨"name", minMsg "name" 3, .major⟩ : ValidationError) ∈
        (validate sampleRecord).errors ∧
      (validateFieldConstraints "amount" (String.mk (List.replicate 201 'a'))).1 = [] ∧
      (⟨"amount", maxMsg "amount" 200, some "Value will be truncated"⟩ :
          ValidationWarning) ∈ (validate sampleRecord).warnings :=
  ⟨validate_spec.1 sampleRecord,
   (validate_spec.2.1 sampleRecord "source" (by decide) (by decide)).1,
   validate_spec.2.2.1 sampleRecord "name" (Or.inl (by decide)) "ab"
     ⟨some 3, some 500, false⟩ 3 (by decide) (by decide) (by decide) (by decide)
     (by decide),
   (validate_spec.2.2.2.1 "amount" (String.mk (List.replicate 201 'a'))
       ⟨none, some 200, false⟩ 200 (by decide) (by decide) (by decide)).2
     (fun m2 hm2 => Option.noConfusion hm2)
     (fun hpat => Bool.noConfusion hpat),
   validate_spec.2.2.2.2 sampleRecord "amount" (Or.inr (by decide))
     (String.mk (List.replicate 201 'a')) ⟨none, some 200, false⟩ 200
     (by decide) (by decide) (by decide) (by decide) (by decide)⟩

end Scholar
